import Mathlib

/-!
Shallow embedding of `kittens/ssh/completion.py` (ssh tab-completion kitten).

Python strings are modelled as `String` (or `List Char` where per-character
scanning is the point), Python dicts as insertion-ordered association lists
with overwrite-in-place assignment semantics, and Python exceptions as
`Except`.  The external world of the module (the spawned `ssh` subprocess and
the host files) is modelled by an explicit environment value.
-/

namespace KittySsh

/-! ### Python string primitives used by the module -/

/-- ASCII whitespace recognised by Python's `str.strip()` / `str.split()`.
(Python also treats some further Unicode code points as whitespace; the
claims only involve the ASCII ones.) -/
def pyIsSpace (c : Char) : Bool :=
  c = ' ' || c = '\t' || c = '\n' || c = '\r' || c = '\x0b' || c = '\x0c'

/-- Python `line.strip()`: remove leading and trailing whitespace. -/
def pyStrip (cs : List Char) : List Char :=
  ((cs.dropWhile pyIsSpace).reverse.dropWhile pyIsSpace).reverse

/-- Helper for `pySplit`: accumulates the current field (reversed) while
scanning the line. -/
def pySplitAux : List Char → List Char → List (List Char)
  | [], acc => if acc.isEmpty then [] else [acc.reverse]
  | c :: rest, acc =>
    if pyIsSpace c then
      if acc.isEmpty then pySplitAux rest []
      else acc.reverse :: pySplitAux rest []
    else pySplitAux rest (c :: acc)

/-- Python `line.split()` with no separator: split on runs of whitespace,
producing no empty fields. -/
def pySplit (cs : List Char) : List (List Char) :=
  pySplitAux cs []

/-! ### Per-format line filters (`hosts_from_*`) -/

/-- Filter for `~/.ssh/config` lines: `parts = line.strip().split()`;
if `len(parts) > 1 and parts[0] == 'Host'` yield `parts[1]`. -/
def hosts_from_config_lines (line : List Char) : List (List Char) :=
  match pySplit (pyStrip line) with
  | p0 :: p1 :: _ => if p0 = "Host".data then [p1] else []
  | _ => []

/-- Model of `re.sub(r':\d+$', '', s)`: if `s` ends with `':'` followed by one
or more digits, remove that suffix, otherwise return `s` unchanged.  (The
regex is end-anchored, so at most one such suffix is removed; `s` is a
whitespace-split field here, hence contains no newline.) -/
def stripPortSuffix (s : List Char) : List Char :=
  match s.reverse.takeWhile Char.isDigit, s.reverse.dropWhile Char.isDigit with
  | _ :: _, ':' :: t => t.reverse
  | _, _ => s

/-- Filter for `known_hosts` lines: `parts = line.strip().split()`;
if `parts` is non-empty yield `re.sub(r':\d+$', '', parts[0])`. -/
def hosts_from_known_hosts (line : List Char) : List (List Char) :=
  match pySplit (pyStrip line) with
  | [] => []
  | p0 :: _ => [stripPortSuffix p0]

/-- Filter for `/etc/hosts`-style lines: strip the line; if it starts with
`'#'` yield nothing; otherwise split on whitespace and yield field 1 if
present, field 2 if present, field 3 if present. -/
def hosts_from_hosts (line : List Char) : List (List Char) :=
  let l := pyStrip line
  if l.head? = some '#' then []
  else
    let parts := pySplit l
    (if parts.length > 0 then [parts.getD 0 []] else []) ++
      (if parts.length > 1 then [parts.getD 1 []] else []) ++
        (if parts.length > 2 then [parts.getD 2 []] else [])

/-! ### Host aggregation (`known_hosts`) -/

/-- The filter in `known_hosts`: `'*' not in x and '[' not in x`
(single-character substring tests, i.e. character membership). -/
def hostOK (x : String) : Bool :=
  !(x.data.contains '*') && !(x.data.contains '[')

/-- Model of `known_hosts()`:
`tuple(sorted(filter(lambda x: '*' not in x and '[' not in x, set(iter_known_hosts()))))`.
The five line sources are abstracted as the list `toks` of all tokens they
yield (a source that fails simply contributes no tokens); `set(...)` is
modelled by `dedup` (the subsequent sort makes the set's iteration order
immaterial) and `sorted` by a merge sort on the lexicographic string order. -/
def known_hosts (toks : List String) : List String :=
  ((toks.dedup).filter hostOK).mergeSort (fun a b => decide (a ≤ b))

/-! ### Python dict model -/

/-- Python dict assignment `d[k] = v` on an insertion-ordered association
list: if `k` is present its value is replaced in place, otherwise the pair is
appended. -/
def dinsert {β : Type} (d : List (String × β)) (k : String) (v : β) :
    List (String × β) :=
  if d.any (fun kv => decide (kv.1 = k)) then
    d.map (fun kv => if kv.1 = k then (k, v) else kv)
  else d ++ [(k, v)]

/-- Python dict lookup `d.get(k)` (`none` models `None`). -/
def olookup {β : Type} : List (String × β) → String → Option β
  | [], _ => none
  | (k, v) :: rest, key => if k = key then some v else olookup rest key

/-- Option table of `ssh_options()`: flag string → extracted description. -/
abbrev OptTable := List (String × String)

/-! ### Option-table parsing (`ssh_options`) -/

/-- Body of the outer `while True` loop of `ssh_options()` applied to one
bracketed-group content `q`:
if `len(q) < 2 or q[0] != '-'` the group is skipped; if `q` contains a
space, `opt, desc = q.split(' ', 1)` and `ans[opt[1:]] = desc`; otherwise
`ans.update(dict.fromkeys(q[1:], ''))`, i.e. every character after the
leading dash is assigned the empty description (overwriting any existing
entry, which is what `dict.update` does). -/
def processGroup (q : List Char) (ans : OptTable) : OptTable :=
  if q.length < 2 ∨ q.head? ≠ some '-' then ans
  else if q.contains ' ' then
    dinsert ans (String.mk (q.takeWhile (fun c => c ≠ ' ')).tail)
      (String.mk ((q.dropWhile (fun c => c ≠ ' ')).tail))
  else (q.tail).foldl (fun a c => dinsert a (String.mk [c]) "") ans

/-- Index-level model of the inner scan of `ssh_options()`:
`num = 1; epos = pos; while num > 0: epos += 1; ...` reading `raw[epos]`.
`scanFrom cs epos num` carries the invariant `cs = raw.drop (epos + 1)`
(the characters not yet read).  When `num` reaches `0` the loop exits and
`epos` (the index of the closing `']'`) is returned; when the text is
exhausted while `num > 0`, the next iteration evaluates `raw[epos]` with
`epos = len(raw)`, which raises `IndexError` — modelled as `none`. -/
def scanFrom : List Char → Nat → Nat → Option Nat
  | _, epos, 0 => some epos
  | [], _, _ + 1 => none
  | c :: rest, epos, num + 1 =>
    scanFrom rest (epos + 1)
      (if c = '[' then num + 2 else if c = ']' then num else num + 1)

/-- The inner scan of `ssh_options()` started just after `raw.find('[', ...)`
returned `pos` (so `raw[pos] = '['` and depth starts at 1). -/
def scanClose (raw : List Char) (pos : Nat) : Option Nat :=
  scanFrom (raw.drop (pos + 1)) pos 1

/-- Control state of the scanning loops of `ssh_options()`:
`seeking` is the outer `raw.find('[', pos)` search; `ingroup num acc` is the
inner depth-counting loop with current depth `num` and the group content
accumulated so far (reversed). -/
inductive ScanState where
  | seeking : ScanState
  | ingroup (num : Nat) (acc : List Char) : ScanState
deriving Repr, DecidableEq

/-- Single left-to-right pass equivalent to the nested loops of
`ssh_options()`: in `seeking` state, characters are skipped until a `'['`
opens a group at depth 1 (this is `raw.find('[', pos)`); in `ingroup` state
each character updates the depth (`'['` increments, `']'` decrements, others
leave it); when the depth returns to 0 the accumulated content `q` (the
characters strictly between the outer brackets) is processed and the search
resumes after the closing `']'` (`pos = epos`; `raw[epos] = ']'` never
matches the find).  Reaching the end of the text while inside a group is the
`IndexError` of the unguarded `raw[epos]` read, modelled as
`Except.error ()`. -/
def parsePass : List Char → ScanState → OptTable → Except Unit OptTable
  | [], ScanState.seeking, ans => Except.ok ans
  | [], ScanState.ingroup _ _, _ => Except.error ()
  | c :: rest, ScanState.seeking, ans =>
    if c = '[' then parsePass rest (ScanState.ingroup 1 []) ans
    else parsePass rest ScanState.seeking ans
  | c :: rest, ScanState.ingroup num acc, ans =>
    let num2 := if c = '[' then num + 1 else if c = ']' then num - 1 else num
    if num2 = 0 then parsePass rest ScanState.seeking (processGroup acc.reverse ans)
    else parsePass rest (ScanState.ingroup num2 (c :: acc)) ans

/-- The pure parsing part of `ssh_options()` applied to the decoded stderr
text `raw`. -/
def ssh_options_parse (raw : List Char) : Except Unit OptTable :=
  parsePass raw ScanState.seeking []

/-- Outcome of `subprocess.Popen(['ssh'], stderr=subprocess.PIPE)` followed by
`stderr.read().decode('utf-8')`:
the spawn itself can fail (missing / non-executable `ssh` binary), the
decode can fail (arbitrary bytes on stderr), or a banner text is obtained. -/
inductive SpawnResult where
  | spawnFailure : SpawnResult
  | undecodableStderr : SpawnResult
  | banner (raw : List Char) : SpawnResult

/-- Python exceptions that can escape `ssh_options()` (none of them is caught
anywhere in the module). -/
inductive PyErr where
  | fileNotFound : PyErr
  | unicodeError : PyErr
  | indexError : PyErr
deriving Repr, DecidableEq

/-- Model of `ssh_options()`: spawn `ssh`, read and decode its stderr, then
parse the banner.  There is no `try`/`except` in the Python function, so a
spawn failure (`FileNotFoundError`), a decode failure (`UnicodeDecodeError`)
and an out-of-bounds read during the bracket scan (`IndexError`) all
propagate to the caller. -/
def ssh_options (s : SpawnResult) : Except PyErr OptTable :=
  match s with
  | SpawnResult.spawnFailure => Except.error PyErr.fileNotFound
  | SpawnResult.undecodableStderr => Except.error PyErr.unicodeError
  | SpawnResult.banner raw =>
    match ssh_options_parse raw with
    | Except.error _ => Except.error PyErr.indexError
    | Except.ok t => Except.ok t

/-! ### Static option description table (`option_help_map`) -/

/-- The static flag-description table built by `option_help_map()`: each line
`-X  -- text` of the embedded literal contributes `ans[parts[0]] = parts[2]`,
i.e. key `-X` (dash included) mapped to the text after the `--` separator. -/
def option_help_map : OptTable :=
  [("-4", "force ssh to use IPv4 addresses only"),
   ("-6", "force ssh to use IPv6 addresses only"),
   ("-a", "disable forwarding of authentication agent connection"),
   ("-A", "enable forwarding of the authentication agent connection"),
   ("-B", "bind to specified interface before attempting to connect"),
   ("-b", "specify interface to transmit on"),
   ("-C", "compress data"),
   ("-c", "select encryption cipher"),
   ("-D", "specify a dynamic port forwarding"),
   ("-E", "append log output to file instead of stderr"),
   ("-e", "set escape character"),
   ("-f", "go to background"),
   ("-F", "specify alternate config file"),
   ("-g", "allow remote hosts to connect to local forwarded ports"),
   ("-G", "output configuration and exit"),
   ("-i", "select identity file"),
   ("-I", "specify smartcard device"),
   ("-J", "connect via a jump host"),
   ("-k", "disable forwarding of GSSAPI credentials"),
   ("-K", "enable GSSAPI-based authentication and forwarding"),
   ("-L", "specify local port forwarding"),
   ("-l", "specify login name"),
   ("-M", "master mode for connection sharing"),
   ("-m", "specify mac algorithms"),
   ("-N", "don't execute a remote command"),
   ("-n", "redirect stdin from /dev/null"),
   ("-O", "control an active connection multiplexing master process"),
   ("-o", "specify extra options"),
   ("-p", "specify port on remote host"),
   ("-P", "use non privileged port"),
   ("-Q", "query parameters"),
   ("-q", "quiet operation"),
   ("-R", "specify remote port forwarding"),
   ("-s", "invoke subsystem"),
   ("-S", "specify location of control socket for connection sharing"),
   ("-T", "disable pseudo-tty allocation"),
   ("-t", "force pseudo-tty allocation"),
   ("-V", "show version number"),
   ("-v", "verbose mode (multiple increase verbosity, up to 3)"),
   ("-W", "forward standard input and output to host"),
   ("-w", "request tunnel device forwarding"),
   ("-x", "disable X11 forwarding"),
   ("-X", "enable (untrusted) X11 forwarding"),
   ("-Y", "enable trusted X11 forwarding"),
   ("-y", "send log info via syslog instead of stderr")]

/-! ### Completion dispatcher -/

/-- The caller-supplied result collector (`kitty.complete.Completions`):
only its `match_groups` mapping (group label → candidate → description) is
touched by this module. -/
structure Completions where
  match_groups : List (String × OptTable)
deriving Repr, DecidableEq

/-- Assignment `ans.match_groups[g] = v`. -/
def setGroup (ans : Completions) (g : String) (v : OptTable) : Completions :=
  ⟨dinsert ans.match_groups g v⟩

/-- Model of `complete_arg`: its Python body is `pass`, so the collector is
returned untouched. -/
def complete_arg (ans : Completions) (option_flag : String)
    (pfx : String := "") : Completions :=
  ans

/-- Model of `complete_option`: if at most one character is typed, offer
every entry of the static table whose key starts with the typed text; with
two or more characters typed, offer exactly the typed text mapped to the
empty description. -/
def complete_option (ans : Completions) (pfx : String := "-") : Completions :=
  if pfx.length ≤ 1 then
    setGroup ans "option"
      (option_help_map.filter (fun kv => pfx.data.isPrefixOf kv.1.data))
  else setGroup ans "option" [(pfx, "")]

/-- Python truthiness of `options.get(...)`: `None` and `''` are falsy, any
non-empty string is truthy. -/
def pyTruthy : Option String → Bool
  | none => false
  | some s => if s = "" then false else true

/-- Word-classification loop of `complete`: walks the words left to right
carrying `expecting_arg`.  A word following an argument-taking flag is
`'arg'`; a word starting with `'-'` is `'option'` and sets `expecting_arg`
when it is exactly a dash plus one character whose table entry is truthy;
the first other word is `'destination'` and the loop `break`s, leaving the
remaining types at their initial `''` (and `expecting_arg` at `False`).
Returns the types list and the final `expecting_arg`. -/
def classify (opts : OptTable) : List String → Bool → List String × Bool
  | [], ea => ([], ea)
  | w :: rest, ea =>
    if ea then
      let r := classify opts rest false
      ("arg" :: r.1, r.2)
    else if w.data.head? = some '-' then
      let ea2 :=
        match w.data with
        | [_, c] => pyTruthy (olookup opts (String.mk [c]))
        | _ => false
      let r := classify opts rest ea2
      ("option" :: r.1, r.2)
    else ("destination" :: List.replicate rest.length "", false)

/-- Python `ws[-1]` under a non-emptiness guard (the default is never used
at the call sites below, which all test `if words`). -/
def lastStr (ws : List String) : String :=
  ws.getLast?.getD ""

/-- External world of the module: the outcome of spawning `ssh` for
`ssh_options()`, and the behaviour of the five host-list sources for
`known_hosts()`.  `hostTokens` is the list of tokens the sources yield (a
file whose `open()` fails, or a failing `getent`, simply contributes none:
those paths are guarded by `try/except`).  `hostReadError` records the one
host-source failure mode that is NOT guarded: in `lines_from_file` the
`except OSError` covers only the `open()` call, while `yield from f` sits in
the `else` block, so an `OSError` or `UnicodeDecodeError` raised while
iterating the already-opened file propagates uncaught (`lines_from_command`,
by contrast, wraps the whole read in `except Exception`).  `some e` means
one of the three file sources raised `e` mid-iteration; `none` means every
iteration ran to completion. -/
structure Env where
  spawn : SpawnResult
  hostTokens : List String
  hostReadError : Option PyErr

/-- Model of the memoized `known_hosts()` call: `set(iter_known_hosts())`
consumes all five sources eagerly, so an exception raised while iterating an
opened host file escapes `known_hosts()`; otherwise the result is the pure
filter-and-sort over the yielded tokens. -/
def known_hosts_run (env : Env) : Except PyErr (List String) :=
  match env.hostReadError with
  | some e => Except.error e
  | none => Except.ok (known_hosts env.hostTokens)

/-- Model of `complete_destination`: call `known_hosts()` (which can raise,
see `known_hosts_run`) and on success write into the group
`'remote host name'` the dict
`{k: '' for k in known_hosts() if k.startswith(prefix)}`. -/
def complete_destination (env : Env) (ans : Completions)
    (pfx : String := "") : Except PyErr Completions :=
  match known_hosts_run env with
  | Except.error e => Except.error e
  | Except.ok hosts =>
    Except.ok (setGroup ans "remote host name"
      ((hosts.filter (fun k => pfx.data.isPrefixOf k.data)).map (fun k => (k, ""))))

/-- Dispatch part of `complete` after the option table has been obtained:
classify the words, then on `new_word` dispatch to argument completion (if
an argument is expected) or destination completion with empty text;
otherwise dispatch on the classification of the last word.  Falling off the
end returns the collector unchanged.  Only the destination branches can
raise (they are the only callers of `known_hosts()`). -/
def completeCore (opts : OptTable) (env : Env) (ans : Completions)
    (words : List String) (new_word : Bool) : Except PyErr Completions :=
  let r := classify opts words false
  let types := r.1
  let expecting_arg := r.2
  if new_word then
    if words.length ≠ 0 ∧ expecting_arg = true then
      Except.ok (complete_arg ans (lastStr words))
    else complete_destination env ans
  else
    if words.length ≠ 0 then
      if lastStr types = "arg" ∧ 1 < words.length then
        Except.ok (complete_arg ans (words.getD (words.length - 2) "") (lastStr words))
      else if lastStr types = "destination" then
        complete_destination env ans (lastStr words)
      else if lastStr types = "option" then
        Except.ok (complete_option ans (lastStr words))
      else Except.ok ans
    else Except.ok ans

/-- Model of `complete`: nothing in the module catches exceptions at this
level, so a failure of the first statement `options = ssh_options()`
propagates to the caller, and so does an error raised inside
`known_hosts()` while iterating an already-opened host file when the
dispatch reaches `complete_destination` (see `Env.hostReadError`); the
remaining producers are total. -/
def complete (env : Env) (ans : Completions) (words : List String)
    (new_word : Bool) : Except PyErr Completions :=
  match ssh_options env.spawn with
  | Except.error e => Except.error e
  | Except.ok opts => completeCore opts env ans words new_word

/-! ### Dictionary lemmas -/

theorem olookup_eq_none_of_any_false {β : Type} (d : List (String × β)) (k : String)
    (h : d.any (fun kv => decide (kv.1 = k)) = false) : olookup d k = none := by
  induction d with
  | nil => rfl
  | cons kv rest ih =>
    rcases kv with ⟨k0, v0⟩
    simp only [List.any_cons, Bool.or_eq_false_iff, decide_eq_false_iff_not] at h
    simp only [olookup, if_neg h.1]
    exact ih h.2

theorem olookup_append {β : Type} (d1 d2 : List (String × β)) (k : String) :
    olookup (d1 ++ d2) k =
      match olookup d1 k with
      | some v => some v
      | none => olookup d2 k := by
  induction d1 with
  | nil => rfl
  | cons kv rest ih =>
    rcases kv with ⟨k0, v0⟩
    by_cases hk : k0 = k
    · simp [olookup, hk]
    · simp [olookup, hk, ih]

theorem olookup_map_overwrite {β : Type} (d : List (String × β)) (k : String) (v : β)
    (h : d.any (fun kv => decide (kv.1 = k)) = true) :
    olookup (d.map (fun kv => if kv.1 = k then (k, v) else kv)) k = some v := by
  induction d with
  | nil => simp at h
  | cons kv rest ih =>
    rcases kv with ⟨k0, v0⟩
    by_cases hk : k0 = k
    · subst hk
      rw [List.map_cons, if_pos (show (k0, v0).1 = k0 from rfl)]
      simp [olookup]
    · simp only [List.any_cons, Bool.or_eq_true, decide_eq_true_eq] at h
      rcases h with h | h
      · exact absurd h hk
      · rw [List.map_cons, if_neg (show ¬ (k0, v0).1 = k from hk)]
        simp only [olookup]
        rw [if_neg hk]
        exact ih h

theorem olookup_map_ne {β : Type} (d : List (String × β)) (k k' : String) (v : β)
    (hne : k' ≠ k) :
    olookup (d.map (fun kv => if kv.1 = k then (k, v) else kv)) k' = olookup d k' := by
  induction d with
  | nil => rfl
  | cons kv rest ih =>
    rcases kv with ⟨k0, v0⟩
    by_cases hk : k0 = k
    · subst hk
      have hne' : ¬ (k0 = k') := fun h => hne h.symm
      rw [List.map_cons, if_pos (show (k0, v0).1 = k0 from rfl)]
      simp only [olookup]
      rw [if_neg hne', if_neg hne']
      exact ih
    · rw [List.map_cons, if_neg (show ¬ (k0, v0).1 = k from hk)]
      simp only [olookup]
      by_cases hk' : k0 = k'
      · rw [if_pos hk', if_pos hk']
      · rw [if_neg hk', if_neg hk']
        exact ih

theorem olookup_dinsert_self {β : Type} (d : List (String × β)) (k : String) (v : β) :
    olookup (dinsert d k v) k = some v := by
  unfold dinsert
  by_cases h : d.any (fun kv => decide (kv.1 = k)) = true
  · rw [if_pos h]
    exact olookup_map_overwrite d k v h
  · rw [if_neg h]
    have h' : d.any (fun kv => decide (kv.1 = k)) = false :=
      Bool.eq_false_iff.mpr h
    rw [olookup_append, olookup_eq_none_of_any_false d k h']
    simp [olookup]

theorem olookup_dinsert_ne {β : Type} (d : List (String × β)) (k k' : String) (v : β)
    (hne : k' ≠ k) : olookup (dinsert d k v) k' = olookup d k' := by
  unfold dinsert
  by_cases h : d.any (fun kv => decide (kv.1 = k)) = true
  · rw [if_pos h]
    exact olookup_map_ne d k k' v hne
  · rw [if_neg h, olookup_append]
    have hkv : olookup [(k, v)] k' = none := by
      simp only [olookup]
      rw [if_neg (fun h : k = k' => hne h.symm)]
    rw [hkv]
    cases olookup d k' <;> rfl

theorem olookup_foldl_preserved (cs : List Char) (a : OptTable) (k : String)
    (h : olookup a k = some "") :
    olookup (cs.foldl (fun t c => dinsert t (String.mk [c]) "") a) k = some "" := by
  induction cs generalizing a with
  | nil => simpa using h
  | cons c rest ih =>
    simp only [List.foldl_cons]
    apply ih
    by_cases hk : k = String.mk [c]
    · rw [hk]
      exact olookup_dinsert_self _ _ _
    · rw [olookup_dinsert_ne _ _ _ _ hk]
      exact h

theorem olookup_foldl_mem (cs : List Char) (a : OptTable) (c : Char) (hc : c ∈ cs) :
    olookup (cs.foldl (fun t c => dinsert t (String.mk [c]) "") a) (String.mk [c]) =
      some "" := by
  induction cs generalizing a with
  | nil => cases hc
  | cons c0 rest ih =>
    simp only [List.foldl_cons]
    rcases List.mem_cons.mp hc with h | h
    · subst h
      exact olookup_foldl_preserved rest _ _ (olookup_dinsert_self _ _ _)
    · exact ih _ h

/-! ### Claim C1: error propagation out of `complete` -/

theorem completeCore_error_hostRead (opts : OptTable) (env : Env)
    (ans : Completions) (words : List String) (nw : Bool) (e : PyErr)
    (h : completeCore opts env ans words nw = Except.error e) :
    env.hostReadError = some e := by
  rcases he : env.hostReadError with _ | e0
  · simp only [completeCore, complete_destination, known_hosts_run, he] at h
    split_ifs at h
  · simp only [completeCore, complete_destination, known_hosts_run, he] at h
    split_ifs at h <;> simp_all

theorem completeCore_ok_of_hostRead_none (opts : OptTable) (env : Env)
    (ans : Completions) (words : List String) (nw : Bool)
    (h : env.hostReadError = none) :
    ∃ ans2, completeCore opts env ans words nw = Except.ok ans2 := by
  simp only [completeCore, complete_destination, known_hosts_run, h]
  split_ifs <;> exact ⟨_, rfl⟩

/-- C1 (counterexample): a call to `complete` can raise, in two ways.
First, when the spawn of `ssh` fails (missing or non-runnable binary),
`ssh_options` is the first statement of `complete` and has no exception
handler, so the `FileNotFoundError` propagates to the caller.  Second, even
with `ssh_options` succeeding, an error raised while iterating an
already-opened host file (only the `open()` is guarded in
`lines_from_file`) escapes `known_hosts()` and propagates out of a
destination dispatch.  In neither case does the call degrade to fewer
candidates. -/
theorem c1_counterexample :
    complete ⟨SpawnResult.spawnFailure, [], none⟩ ⟨[]⟩ [] false =
        Except.error PyErr.fileNotFound ∧
      complete ⟨SpawnResult.banner "[-p port]".data, ["hostel"],
          some PyErr.unicodeError⟩ ⟨[]⟩ [] true =
        Except.error PyErr.unicodeError :=
  ⟨rfl, rfl⟩

/-- C1 (amended): `complete` is not error-free, but its failures come from
exactly two unguarded places: every error of `ssh_options`
(missing/non-runnable ssh binary, undecodable stderr bytes, unclosed
bracket group in the banner) propagates, and an `OSError` or
`UnicodeDecodeError` raised while iterating an already-opened host file
escapes `known_hosts()` on the destination dispatches; any error returned
by `complete` is one of these two.  Failures guarded at the source — the
`open()` of a host file, and the whole `getent` read — only reduce the
candidate set, and when `ssh_options` succeeds and the host-file iteration
completes, `complete` returns normally. -/
theorem c1_error_sources (env : Env) (ans : Completions) (words : List String)
    (nw : Bool) :
    (∀ e, complete env ans words nw = Except.error e →
      ssh_options env.spawn = Except.error e ∨ env.hostReadError = some e) ∧
    (∀ e, ssh_options env.spawn = Except.error e →
      complete env ans words nw = Except.error e) ∧
    (env.hostReadError = none →
      ∀ opts, ssh_options env.spawn = Except.ok opts →
        ∃ ans2, complete env ans words nw = Except.ok ans2) := by
  refine ⟨?_, ?_, ?_⟩
  · intro e h
    unfold complete at h
    cases hs : ssh_options env.spawn with
    | error e0 =>
      rw [hs] at h
      left
      simp at h
      rw [h]
    | ok opts =>
      rw [hs] at h
      right
      exact completeCore_error_hostRead opts env ans words nw e h
  · intro e h
    unfold complete
    rw [h]
  · intro hnone opts hs
    obtain ⟨ans2, h2⟩ :=
      completeCore_ok_of_hostRead_none opts env ans words nw hnone
    refine ⟨ans2, ?_⟩
    unfold complete
    rw [hs]
    exact h2

/-- C1 (witness): at an environment with a parsed banner and clean host
sources, a completion request returns normally. -/
theorem c1_error_sources_witness :
    ∃ ans2, complete ⟨SpawnResult.banner "[-p port]".data, ["hostel"], none⟩
        ⟨[]⟩ ["x"] false = Except.ok ans2 :=
  (c1_error_sources ⟨SpawnResult.banner "[-p port]".data, ["hostel"], none⟩
    ⟨[]⟩ ["x"] false).2.2 rfl [("p", "port")] rfl

/-! ### Claim C2: bracket scan termination and bounds -/

theorem scanFrom_some_bounds (cs : List Char) :
    ∀ (epos n e : Nat), scanFrom cs epos (n + 1) = some e →
      epos < e ∧ e ≤ epos + cs.length := by
  induction cs with
  | nil =>
    intro epos n e h
    simp [scanFrom] at h
  | cons c rest ih =>
    intro epos n e h
    simp only [scanFrom] at h
    rcases hn : (if c = '[' then n + 2 else if c = ']' then n else n + 1) with _ | m
    · rw [hn] at h
      rw [scanFrom] at h
      injection h with h'
      refine ⟨by omega, ?_⟩
      simp only [List.length_cons]
      omega
    · rw [hn] at h
      obtain ⟨ha, hb⟩ := ih (epos + 1) m e h
      refine ⟨by omega, ?_⟩
      simp only [List.length_cons]
      omega

/-- C2 (counterexample): on the banner `"["` the outer loop finds `'['` at
position 0 and the inner scan immediately evaluates `raw[1]`, one past the
end of the one-character text: the scan does not stop on malformed nesting,
it reads beyond the string and the resulting `IndexError` aborts
`ssh_options`. -/
theorem c2_counterexample :
    scanClose "[".data 0 = none ∧
      ssh_options (SpawnResult.banner "[".data) = Except.error PyErr.indexError :=
  ⟨rfl, rfl⟩

/-- C2 (amended): whenever the inner depth-counting scan of `ssh_options`
finds a closing bracket (returns normally), the returned index lies strictly
inside the text, so no out-of-bounds read happened; but on unbalanced
nesting, where no closing bracket exists, the scan reads past the end of the
text and raises `IndexError` (see the counterexample) instead of stopping. -/
theorem c2_scan_in_bounds (raw : List Char) (pos e : Nat)
    (h : scanClose raw pos = some e) : pos < e ∧ e < raw.length := by
  unfold scanClose at h
  obtain ⟨h1, h2⟩ := scanFrom_some_bounds (raw.drop (pos + 1)) pos 0 e h
  have hlen : (raw.drop (pos + 1)).length = raw.length - (pos + 1) :=
    List.length_drop _ _
  by_cases hl : raw.length ≤ pos + 1
  · exfalso
    have hnil : raw.drop (pos + 1) = [] := by
      apply List.eq_nil_of_length_eq_zero
      omega
    rw [hnil] at h
    simp [scanFrom] at h
  · exact ⟨h1, by omega⟩

/-- C2 (witness): on the balanced banner `"[-a]"` the scan started at the
bracket at index 0 closes at index 3, strictly inside the text. -/
theorem c2_scan_in_bounds_witness : 0 < 3 ∧ 3 < "[-a]".data.length :=
  c2_scan_in_bounds "[-a]".data 0 3 rfl

/-! ### Claim C3: option table of a concrete banner -/

/-- C3: on the banner `"usage: ssh [-46AaC] [-b bind_address]"` the option
parse produces exactly the table mapping `4`, `6`, `A`, `a`, `C` to the
empty description and `b` to `"bind_address"`. -/
theorem c3_banner_option_table :
    ssh_options (SpawnResult.banner "usage: ssh [-46AaC] [-b bind_address]".data) =
      Except.ok [("4", ""), ("6", ""), ("A", ""), ("a", ""), ("C", ""),
        ("b", "bind_address")] := rfl

/-! ### Claim C4: the flag-cluster branch overwrites -/

/-- C4 (counterexample): with the table already mapping `"b"` to the
non-empty description `"foo"`, processing the cluster group `-ab` rewrites
the entry for `"b"` to the empty string: `dict.update` overwrites, so the
earlier entry is NOT preserved, refuting the claim. -/
theorem c4_counterexample :
    olookup (processGroup "-ab".data [("b", "foo")]) "b" = some "" := rfl

/-- C4 (amended): in the space-free flag-cluster branch of `ssh_options`,
every character after the leading dash ends up mapped to the empty string
unconditionally — `ans.update(dict.fromkeys(q[1:], ''))` overwrites any
earlier entry for the same flag (last-write-wins), it does not skip keys
that are already present. -/
theorem c4_cluster_overwrites (ans : OptTable) (q : List Char)
    (hlen : 2 ≤ q.length) (hhead : q.head? = some '-')
    (hsp : q.contains ' ' = false) :
    ∀ c ∈ q.tail, olookup (processGroup q ans) (String.mk [c]) = some "" := by
  intro c hc
  have h1 : ¬ (q.length < 2 ∨ q.head? ≠ some '-') := by
    push_neg
    exact ⟨by omega, hhead⟩
  have h2 : ¬ (q.contains ' ' = true) := by
    rw [hsp]
    simp
  unfold processGroup
  rw [if_neg h1, if_neg h2]
  exact olookup_foldl_mem _ _ _ hc

/-- C4 (witness): processing the cluster `-ab` over the table
`[("b", "foo")]` leaves `"a"` mapped to the empty string. -/
theorem c4_cluster_overwrites_witness :
    olookup (processGroup "-ab".data [("b", "foo")]) (String.mk ['a']) = some "" :=
  c4_cluster_overwrites [("b", "foo")] "-ab".data (by decide) (by decide) (by decide)
    'a' (by decide)

/-! ### Claim C5: shape of the `known_hosts` result -/

/-- C5: for every token collection yielded by the five host sources,
`known_hosts` returns a duplicate-free sequence, free of `'*'` and `'['`,
sorted lexicographically ascending, and containing every yielded token that
is free of `'*'` and `'['`. -/
theorem c5_known_hosts_shape (toks : List String) :
    (known_hosts toks).Nodup ∧
      (∀ x ∈ known_hosts toks,
        x.data.contains '*' = false ∧ x.data.contains '[' = false) ∧
      List.Pairwise (fun a b : String => a ≤ b) (known_hosts toks) ∧
      (∀ x ∈ toks, x.data.contains '*' = false → x.data.contains '[' = false →
        x ∈ known_hosts toks) := by
  have hperm : (known_hosts toks).Perm ((toks.dedup).filter hostOK) :=
    List.mergeSort_perm _ _
  refine ⟨?_, ?_, ?_, ?_⟩
  · exact hperm.symm.nodup ((List.nodup_dedup toks).filter _)
  · intro x hx
    have hx2 := (List.mem_filter.mp (hperm.mem_iff.mp hx)).2
    unfold hostOK at hx2
    simp only [Bool.and_eq_true, Bool.not_eq_true'] at hx2
    exact hx2
  · have hs := @List.sorted_mergeSort String
      (fun a b : String => decide (a ≤ b))
      (fun a b c hab hbc => by
        simp only [decide_eq_true_eq] at hab hbc ⊢
        exact le_trans hab hbc)
      (fun a b => by
        simp only [Bool.or_eq_true, decide_eq_true_eq]
        exact le_total a b)
      ((toks.dedup).filter hostOK)
    exact hs.imp fun h => of_decide_eq_true h
  · intro x hx h1 h2
    refine hperm.mem_iff.mpr (List.mem_filter.mpr ⟨List.mem_dedup.mpr hx, ?_⟩)
    unfold hostOK
    rw [h1, h2]
    rfl

/-- C5 (witness): a clean token survives aggregation over a source list that
also contains a duplicate, a wildcard token and a bracket token. -/
theorem c5_known_hosts_shape_witness :
    ("a" : String) ∈ known_hosts ["b", "a", "192.168.*.1", "[host]:22", "b"] :=
  (c5_known_hosts_shape ["b", "a", "192.168.*.1", "[host]:22", "b"]).2.2.2 "a"
    (by decide) (by decide) (by decide)

/-! ### Claim C6: classification and destination dispatch -/

/-- C6: with an option table mapping `"p"` to a non-empty value (and the
host-file iteration completing, so that the destination dispatch can
answer), the words `["-p", "2222", "host"]` with `new_word = false` are
classified `option`, `arg`, `destination`, and `complete` dispatches to
destination completion: the group `'remote host name'` receives exactly the
known hosts that start with `"host"`, each mapped to the empty
description. -/
theorem c6_destination_dispatch (env : Env) (opts : OptTable) (ans : Completions)
    (d : String) (hok : ssh_options env.spawn = Except.ok opts)
    (hnr : env.hostReadError = none)
    (hp : olookup opts "p" = some d) (hd : d ≠ "") :
    classify opts ["-p", "2222", "host"] false =
        (["option", "arg", "destination"], false) ∧
      complete env ans ["-p", "2222", "host"] false =
        Except.ok (setGroup ans "remote host name"
          (((known_hosts env.hostTokens).filter
              (fun k => "host".data.isPrefixOf k.data)).map (fun k => (k, "")))) := by
  have h1 : "-p".data = ['-', 'p'] := rfl
  have h2 : "2222".data = ['2', '2', '2', '2'] := rfl
  have h3 : "host".data = ['h', 'o', 's', 't'] := rfl
  have hk : String.mk ['p'] = "p" := rfl
  have hcl : classify opts ["-p", "2222", "host"] false =
      (["option", "arg", "destination"], false) := by
    simp only [classify, h1, h2, h3, hk, List.head?, hp, pyTruthy]
    simp [hd]
  refine ⟨hcl, ?_⟩
  have hcomp : complete env ans ["-p", "2222", "host"] false =
      completeCore opts env ans ["-p", "2222", "host"] false := by
    unfold complete
    rw [hok]
  have hl1 : lastStr ["option", "arg", "destination"] = "destination" := rfl
  have hl2 : lastStr ["-p", "2222", "host"] = "host" := rfl
  rw [hcomp]
  unfold completeCore
  rw [hcl]
  norm_num [hl1, hl2, complete_destination, known_hosts_run, hnr]
  intro hfalse
  simp at hfalse

/-- C6 (witness): the dispatch at a concrete environment whose banner is
`"[-p port]"` and whose sources yield two hosts and fail nowhere. -/
theorem c6_destination_dispatch_witness :
    classify [("p", "port")] ["-p", "2222", "host"] false =
        (["option", "arg", "destination"], false) ∧
      complete ⟨SpawnResult.banner "[-p port]".data, ["hostel", "alpha"], none⟩
          ⟨[]⟩ ["-p", "2222", "host"] false =
        Except.ok (setGroup ⟨[]⟩ "remote host name"
          (((known_hosts ["hostel", "alpha"]).filter
              (fun k => "host".data.isPrefixOf k.data)).map (fun k => (k, "")))) :=
  c6_destination_dispatch
    ⟨SpawnResult.banner "[-p port]".data, ["hostel", "alpha"], none⟩
    [("p", "port")] ⟨[]⟩ "port" rfl rfl rfl (by decide)

/-! ### Claim C7: new-word argument completion is a no-op -/

/-- C7: with an option table mapping `"p"` to a non-empty value, the words
`["-p"]` with `new_word = true` leave `expecting_arg` set, so `complete`
dispatches to `complete_arg`, whose body is `pass`: the collector comes back
entirely unchanged — in particular no `'remote host name'` group is
written. -/
theorem c7_arg_completion_noop (env : Env) (opts : OptTable) (ans : Completions)
    (d : String) (hok : ssh_options env.spawn = Except.ok opts)
    (hp : olookup opts "p" = some d) (hd : d ≠ "") :
    classify opts ["-p"] false = (["option"], true) ∧
      complete env ans ["-p"] true = Except.ok ans := by
  have h1 : "-p".data = ['-', 'p'] := rfl
  have hk : String.mk ['p'] = "p" := rfl
  have hcl : classify opts ["-p"] false = (["option"], true) := by
    simp only [classify, h1, hk, List.head?, hp, pyTruthy]
    simp [hd]
  refine ⟨hcl, ?_⟩
  have hcomp : complete env ans ["-p"] true =
      completeCore opts env ans ["-p"] true := by
    unfold complete
    rw [hok]
  rw [hcomp]
  unfold completeCore
  rw [hcl]
  norm_num [complete_arg]

/-- C7 (witness): the no-op dispatch at a concrete environment whose banner
is `"[-p port]"`; the result does not depend on the host sources, which this
path never touches. -/
theorem c7_arg_completion_noop_witness :
    classify [("p", "port")] ["-p"] false = (["option"], true) ∧
      complete ⟨SpawnResult.banner "[-p port]".data, ["hostel", "alpha"],
          some PyErr.unicodeError⟩ ⟨[]⟩ ["-p"] true =
        Except.ok (⟨[]⟩ : Completions) :=
  c7_arg_completion_noop
    ⟨SpawnResult.banner "[-p port]".data, ["hostel", "alpha"], some PyErr.unicodeError⟩
    [("p", "port")] ⟨[]⟩ "port" rfl rfl (by decide)

/-! ### Claim C8: the known-hosts filter strips exactly one port suffix -/

/-- Spec-side description of the suffix stripping: either `s` decomposes as
`r` followed by `':'` and a non-empty run of digits (and `r` is the result),
or no such decomposition exists and the result is `s` unchanged. -/
def stripsOneTrailingPort (s r : List Char) : Prop :=
  (∃ ds, ds ≠ [] ∧ (∀ c ∈ ds, c.isDigit = true) ∧ s = r ++ ':' :: ds) ∨
    (r = s ∧ ∀ r' ds, ds ≠ [] → (∀ c ∈ ds, c.isDigit = true) → s ≠ r' ++ ':' :: ds)

theorem takeWhile_all_append_not {p : Char → Bool} (l₁ l₂ : List Char) (c : Char)
    (h1 : ∀ x ∈ l₁, p x = true) (h2 : p c = false) :
    (l₁ ++ c :: l₂).takeWhile p = l₁ ∧ (l₁ ++ c :: l₂).dropWhile p = c :: l₂ := by
  induction l₁ with
  | nil => simp [List.takeWhile_cons, List.dropWhile_cons, h2]
  | cons a l ih =>
    have ha : p a = true := h1 a (by simp)
    have ih' := ih (fun x hx => h1 x (by simp [hx]))
    simp [List.takeWhile_cons, List.dropWhile_cons, ha, ih'.1, ih'.2]

theorem stripPortSuffix_spec (s : List Char) :
    stripsOneTrailingPort s (stripPortSuffix s) := by
  have hnone : ∀ r' ds : List Char, ds ≠ [] → (∀ c ∈ ds, c.isDigit = true) →
      s = r' ++ ':' :: ds →
      s.reverse.takeWhile Char.isDigit = ds.reverse ∧
        s.reverse.dropWhile Char.isDigit = ':' :: r'.reverse := by
    intro r' ds hne hdig heq
    have hrev : s.reverse = ds.reverse ++ ':' :: r'.reverse := by
      rw [heq]
      simp
    rw [hrev]
    exact takeWhile_all_append_not _ _ _
      (fun x hx => hdig x (List.mem_reverse.mp hx)) (by decide)
  unfold stripsOneTrailingPort stripPortSuffix
  split
  case _ d ds t heq1 heq2 =>
    left
    refine ⟨(d :: ds).reverse, by simp, ?_, ?_⟩
    · intro c hc
      exact @List.mem_takeWhile_imp Char Char.isDigit s.reverse c
        (by rw [heq1]; exact List.mem_reverse.mp hc)
    · have hsd := List.takeWhile_append_dropWhile Char.isDigit s.reverse
      rw [heq1, heq2] at hsd
      have hs2 : s = ((d :: ds) ++ ':' :: t).reverse := by
        rw [hsd]
        simp
      rw [hs2]
      simp
  case _ hno =>
    right
    refine ⟨rfl, ?_⟩
    intro r' ds hne hdig heq
    have h := hnone r' ds hne hdig heq
    rcases hd : ds.reverse with _ | ⟨e, es⟩
    · exact hne (by simpa using hd)
    · exact hno e es r'.reverse (by rw [h.1, hd]) h.2

/-- C8: for every line, if the whitespace-split field list is empty the
filter yields nothing; otherwise it yields exactly one token, namely the
first field with one trailing colon-plus-digits suffix removed when such a
suffix is present, and the first field unchanged otherwise. -/
theorem c8_known_hosts_filter (line : List Char) :
    (pySplit (pyStrip line) = [] → hosts_from_known_hosts line = []) ∧
      (∀ f rest, pySplit (pyStrip line) = f :: rest →
        hosts_from_known_hosts line = [stripPortSuffix f] ∧
          stripsOneTrailingPort f (stripPortSuffix f)) := by
  constructor
  · intro h
    unfold hosts_from_known_hosts
    rw [h]
  · intro f rest h
    unfold hosts_from_known_hosts
    rw [h]
    exact ⟨rfl, stripPortSuffix_spec f⟩

/-- C8 (witness): on a concrete known-hosts line the first field loses its
`:2222` suffix and nothing else. -/
theorem c8_known_hosts_filter_witness :
    hosts_from_known_hosts "example.com:2222 ssh-rsa KEY".data =
        [stripPortSuffix "example.com:2222".data] ∧
      stripsOneTrailingPort "example.com:2222".data
        (stripPortSuffix "example.com:2222".data) :=
  (c8_known_hosts_filter "example.com:2222 ssh-rsa KEY".data).2
    "example.com:2222".data ["ssh-rsa".data, "KEY".data] rfl

/-! ### Claim C9: the hosts-file filter -/

/-- C9: for every line, the hosts-file filter yields nothing when the
trimmed line starts with `'#'` or is empty, otherwise it yields in order the
first, second and third whitespace-separated fields as far as they exist,
and never more than three tokens. -/
theorem c9_hosts_filter (line : List Char) :
    ((pyStrip line).head? = some '#' → hosts_from_hosts line = []) ∧
      (pyStrip line = [] → hosts_from_hosts line = []) ∧
      ((pyStrip line).head? ≠ some '#' →
        hosts_from_hosts line = (pySplit (pyStrip line)).take 3) ∧
      (hosts_from_hosts line).length ≤ 3 := by
  have htake : (pyStrip line).head? ≠ some '#' →
      hosts_from_hosts line = (pySplit (pyStrip line)).take 3 := by
    intro h
    unfold hosts_from_hosts
    rw [if_neg h]
    generalize pySplit (pyStrip line) = parts
    rcases parts with _ | ⟨a, _ | ⟨b, _ | ⟨c, r⟩⟩⟩ <;> simp [List.getD]
  refine ⟨?_, ?_, htake, ?_⟩
  · intro h
    unfold hosts_from_hosts
    rw [if_pos h]
  · intro h
    have hne : (pyStrip line).head? ≠ some '#' := by
      rw [h]
      simp
    rw [htake hne, h]
    rfl
  · by_cases h : (pyStrip line).head? = some '#'
    · unfold hosts_from_hosts
      rw [if_pos h]
      simp
    · rw [htake h]
      exact List.length_take_le _ _

/-- C9 (witness): a three-token line and a comment line behave as claimed;
a fourth field would be dropped. -/
theorem c9_hosts_filter_witness :
    hosts_from_hosts "1.2.3.4 foo bar baz".data =
        (pySplit (pyStrip "1.2.3.4 foo bar baz".data)).take 3 ∧
      hosts_from_hosts "# 1.2.3.4 foo".data = [] :=
  ⟨(c9_hosts_filter "1.2.3.4 foo bar baz".data).2.2.1 (by decide),
    (c9_hosts_filter "# 1.2.3.4 foo".data).1 (by decide)⟩

/-! ### Claim C10: option completion with two typed characters -/

/-- C10: for every partial option word consisting of a dash followed by
exactly one character, `complete_option` writes into the `'option'` group
only the typed word itself mapped to the empty string: the `len(prefix) <= 1`
test fails at length 2, so the branch that lists matching flags from the
static description table is not taken. -/
theorem c10_two_char_option (ans : Completions) (c : Char) :
    complete_option ans (String.mk ['-', c]) =
      setGroup ans "option" [(String.mk ['-', c], "")] := by
  unfold complete_option
  rw [if_neg]
  intro h
  have hlen : (String.mk ['-', c]).length = 2 := rfl
  omega

end KittySsh
